import Mathlib

/-!
Verification development for the libgit2dart Windows plugin glue
(src/windows/libgit2dart_plugin.h and src/windows/libgit2dart_plugin_c_api.cpp)
and the method-channel dispatch contract specified for it.

The supplied sources contain only the class declaration of
`Libgit2dartPlugin` (its method `HandleMethodCall` is declared but its body
is not among the supplied files) and the C-ABI registration shim
`Libgit2dartPluginCApiRegisterWithRegistrar`.  Components whose code is not
supplied (the dispatch body, the value codec, the host registrant, the
per-handle scheduling discipline) are modelled from the specification; each
such definition says so in its doc comment.
-/

set_option maxHeartbeats 1000000

namespace Libgit2dart

mutual

/-- Modelled from the spec: the encoded-value union used for arguments and
results of a Method Call — one of null, bool, integer, double, string,
byte-sequence, ordered list, key-unique map.  (The codec implementation is
not among the supplied sources; the spec fixes only the union of shapes.)
A double is represented by its raw 64-bit pattern, since the channel codec
transports doubles bit-for-bit. -/
inductive EncodableValue : Type where
  | nullV : EncodableValue
  | boolV : Bool → EncodableValue
  | intV : Int → EncodableValue
  | doubleV : Nat → EncodableValue
  | stringV : String → EncodableValue
  | bytesV : List Nat → EncodableValue
  | listV : EValueList → EncodableValue
  | mapV : EValuePairs → EncodableValue

/-- Ordered list of encoded values (nested component of `EncodableValue`). -/
inductive EValueList : Type where
  | nil : EValueList
  | cons : EncodableValue → EValueList → EValueList

/-- Ordered key-value pair sequence of encoded values (map component of
`EncodableValue`). -/
inductive EValuePairs : Type where
  | nil : EValuePairs
  | cons : EncodableValue → EncodableValue → EValuePairs → EValuePairs

end

/-- Modelled from the spec: one token of the self-describing wire form of an
encoded value.  Composite tokens carry the element count of the composite
that follows them. -/
inductive Token : Type where
  | tnull : Token
  | tbool : Bool → Token
  | tint : Int → Token
  | tdouble : Nat → Token
  | tstring : String → Token
  | tbytes : List Nat → Token
  | tlist : Nat → Token
  | tmap : Nat → Token

/-- Number of elements of an `EValueList`. -/
def elen : EValueList → Nat
  | .nil => 0
  | .cons _ xs => elen xs + 1

/-- Number of pairs of an `EValuePairs`. -/
def plen : EValuePairs → Nat
  | .nil => 0
  | .cons _ _ r => plen r + 1

mutual

/-- Modelled from the spec: encode a value into its self-describing token
stream.  Every value contributes exactly one head token; lists and maps are
prefixed by a counted composite token. -/
def encodeV : EncodableValue → List Token
  | .nullV => [Token.tnull]
  | .boolV b => [Token.tbool b]
  | .intV i => [Token.tint i]
  | .doubleV d => [Token.tdouble d]
  | .stringV s => [Token.tstring s]
  | .bytesV bs => [Token.tbytes bs]
  | .listV xs => Token.tlist (elen xs) :: encodeL xs
  | .mapV kvs => Token.tmap (plen kvs) :: encodeP kvs

/-- Encode the elements of a list, one after the other. -/
def encodeL : EValueList → List Token
  | .nil => []
  | .cons x xs => encodeV x ++ encodeL xs

/-- Encode the pairs of a map, key before value, pair after pair. -/
def encodeP : EValuePairs → List Token
  | .nil => []
  | .cons k v r => encodeV k ++ encodeV v ++ encodeP r

end

mutual

/-- Structural weight of a value: one per node plus one per element slot.
Used as a fuel bound for the decoder. -/
def sizeV : EncodableValue → Nat
  | .listV xs => sizeL xs + 1
  | .mapV kvs => sizeP kvs + 1
  | _ => 1

/-- Structural weight of a list of values. -/
def sizeL : EValueList → Nat
  | .nil => 0
  | .cons x xs => sizeV x + sizeL xs + 1

/-- Structural weight of a pair sequence. -/
def sizeP : EValuePairs → Nat
  | .nil => 0
  | .cons k v r => sizeV k + sizeV v + sizeP r + 1

end

mutual

/-- Modelled from the spec: decode one value from the front of a token
stream, returning it together with the unconsumed remainder.  `fuel` bounds
the recursion depth; `decode` supplies a fuel that suffices for any stream
produced by `encodeV`. -/
def decodeV : Nat → List Token → Option (EncodableValue × List Token)
  | 0, _ => none
  | _ + 1, [] => none
  | fuel + 1, t :: rest =>
    match t with
    | .tnull => some (.nullV, rest)
    | .tbool b => some (.boolV b, rest)
    | .tint i => some (.intV i, rest)
    | .tdouble d => some (.doubleV d, rest)
    | .tstring s => some (.stringV s, rest)
    | .tbytes bs => some (.bytesV bs, rest)
    | .tlist n =>
      match decodeItems fuel n rest with
      | some (xs, rest2) => some (.listV xs, rest2)
      | none => none
    | .tmap n =>
      match decodePairs fuel n rest with
      | some (kvs, rest2) => some (.mapV kvs, rest2)
      | none => none

/-- Decode exactly `n` consecutive values. -/
def decodeItems : Nat → Nat → List Token → Option (EValueList × List Token)
  | _, 0, toks => some (.nil, toks)
  | 0, _ + 1, _ => none
  | fuel + 1, n + 1, toks =>
    match decodeV fuel toks with
    | some (v, toks1) =>
      match decodeItems fuel n toks1 with
      | some (vs, toks2) => some (.cons v vs, toks2)
      | none => none
    | none => none

/-- Decode exactly `n` consecutive key-value pairs. -/
def decodePairs : Nat → Nat → List Token → Option (EValuePairs × List Token)
  | _, 0, toks => some (.nil, toks)
  | 0, _ + 1, _ => none
  | fuel + 1, n + 1, toks =>
    match decodeV fuel toks with
    | some (k, toks1) =>
      match decodeV fuel toks1 with
      | some (v, toks2) =>
        match decodePairs fuel n toks2 with
        | some (kvs, toks3) => some (.cons k v kvs, toks3)
        | none => none
      | none => none
    | none => none

end

/-- Modelled from the spec: top-level encoding of a supported value. -/
def encode (v : EncodableValue) : List Token := encodeV v

/-- Modelled from the spec: top-level decoding of a token stream; succeeds
only when the stream is exactly one well-formed value. -/
def decode (toks : List Token) : Option EncodableValue :=
  match decodeV (2 * toks.length) toks with
  | some (v, []) => some v
  | _ => none

/-- A Method Call as received on the plugin channel: an operation name and
an encoded argument payload.  Mirrors the parameter
`flutter::MethodCall<flutter::EncodableValue>` of `HandleMethodCall`
declared in src/windows/libgit2dart_plugin.h. -/
structure MethodCall where
  method : String
  arguments : EncodableValue

/-- Modelled from the spec: the error taxonomy of the dispatch contract. -/
inductive ErrorKind : Type where
  | unimplementedOperation : ErrorKind
  | invalidArgument : ErrorKind
  | nativeOperationFailed : ErrorKind
  | unsupportedResultType : ErrorKind
  deriving DecidableEq

/-- Modelled from the spec: a structured error response — error kind,
human-readable message, optional detail payload. -/
structure ErrorResponse where
  kind : ErrorKind
  message : String
  details : Option EncodableValue

/-- Modelled from the spec: the terminal response of a Method Call, either a
success value in the channel encoding or a structured error. -/
inductive Response : Type where
  | success : EncodableValue → Response
  | failure : ErrorResponse → Response

/-- Modelled from the spec: the shape tag expected of an argument field. -/
inductive FieldType : Type where
  | nullT : FieldType
  | boolT : FieldType
  | intT : FieldType
  | doubleT : FieldType
  | stringT : FieldType
  | bytesT : FieldType
  | listT : FieldType
  | mapT : FieldType
  deriving DecidableEq

/-- Printable name of an expected shape, used when an `InvalidArgument`
error names the expected type. -/
def FieldType.typeName : FieldType → String
  | .nullT => "Null"
  | .boolT => "Bool"
  | .intT => "Int"
  | .doubleT => "Double"
  | .stringT => "String"
  | .bytesT => "Bytes"
  | .listT => "List"
  | .mapT => "Map"

/-- Does an encoded value have the given shape? -/
def typeMatches : FieldType → EncodableValue → Bool
  | .nullT, .nullV => true
  | .boolT, .boolV _ => true
  | .intT, .intV _ => true
  | .doubleT, .doubleV _ => true
  | .stringT, .stringV _ => true
  | .bytesT, .bytesV _ => true
  | .listT, .listV _ => true
  | .mapT, .mapV _ => true
  | _, _ => false

/-- Modelled from the spec: the argument schema of one recognized operation,
a list of required named fields with their expected shapes. -/
structure OpSpec where
  requiredFields : List (String × FieldType)

/-- Look up a string-keyed field in an argument map. -/
def lookupField : EValuePairs → String → Option EncodableValue
  | .nil, _ => none
  | .cons (.stringV k) v r, nm => if k = nm then some v else lookupField r nm
  | .cons _ _ r, nm => lookupField r nm

/-- Modelled from the spec: validate the required fields of a recognized
operation against the argument map, producing either the typed argument
list or the first offending field together with its expected type. -/
def validateFields (kvs : EValuePairs) :
    List (String × FieldType) →
      Except (String × FieldType) (List (String × EncodableValue))
  | [] => .ok []
  | (nm, ty) :: rest =>
    match lookupField kvs nm with
    | none => .error (nm, ty)
    | some v =>
      if typeMatches ty v then
        match validateFields kvs rest with
        | .ok acc => .ok ((nm, v) :: acc)
        | .error e => .error e
      else .error (nm, ty)

/-- Modelled from the spec: arguments must be a key-unique map from argument
name to encoded value; a non-map payload is itself an invalid argument. -/
def validateArgs (spec : OpSpec) (args : EncodableValue) :
    Except (String × FieldType) (List (String × EncodableValue)) :=
  match args with
  | .mapV kvs => validateFields kvs spec.requiredFields
  | _ => .error ("arguments", .mapT)

/-- Modelled from the spec: the outcome of one native-library invocation —
success with a result value, the handles it acquired and the subset handed
back to the caller, or failure with the native error code and message and
the handles acquired before failing. -/
inductive NativeResult : Type where
  | ok : EncodableValue → List Nat → List Nat → NativeResult
  | fail : Int → String → List Nat → NativeResult

/-- Observable events of one dispatch: native invocation, native-handle
acquisition and release, and the terminal response. -/
inductive Event : Type where
  | nativeInvoked : String → Event
  | acquire : Nat → Event
  | release : Nat → Event
  | respond : Response → Event

/-- Modelled from the spec: the `UnimplementedOperation` error, carrying the
offending operation name. -/
def unimplementedError (opName : String) : ErrorResponse :=
  { kind := .unimplementedOperation, message := opName, details := none }

/-- Modelled from the spec: the `InvalidArgument` error, naming the
offending field and the expected type in its detail payload. -/
def invalidArgumentError (field : String) (expected : FieldType) : ErrorResponse :=
  { kind := .invalidArgument
    message := field
    details := some (.mapV (.cons (.stringV "field") (.stringV field)
      (.cons (.stringV "expectedType") (.stringV expected.typeName) .nil))) }

/-- Modelled from the spec: the `NativeOperationFailed` error, preserving
the native error code (detail payload) and message text. -/
def nativeFailureError (code : Int) (message : String) : ErrorResponse :=
  { kind := .nativeOperationFailed, message := message
    details := some (.intV code) }

/-- Modelled from the spec: the body of `Libgit2dartPlugin::HandleMethodCall`
is declared in src/windows/libgit2dart_plugin.h (lines 24-26) but not among
the supplied sources.  The dispatch routine is modelled from the spec's
contract, parametric in the operation table and in the behaviour of the
wrapped native library, and returns the trace of observable events of the
one call: unrecognized names answer `UnimplementedOperation`; recognized
operations validate arguments before any native work, answering
`InvalidArgument` on the first offending field; a failing native call has
every handle it acquired released before the error response; a successful
native call releases every acquired handle not handed back to the caller
and responds with the converted result. -/
def HandleMethodCall (table : String → Option OpSpec)
    (native : String → List (String × EncodableValue) → NativeResult)
    (call : MethodCall) : List Event :=
  match table call.method with
  | none => [.respond (.failure (unimplementedError call.method))]
  | some spec =>
    match validateArgs spec call.arguments with
    | .error (field, ty) => [.respond (.failure (invalidArgumentError field ty))]
    | .ok args =>
      Event.nativeInvoked call.method ::
      match native call.method args with
      | .fail code msg acquired =>
        acquired.map Event.acquire ++ acquired.map Event.release ++
          [.respond (.failure (nativeFailureError code msg))]
      | .ok value acquired returned =>
        acquired.map Event.acquire ++
          (acquired.filter (fun h => decide (h ∉ returned))).map Event.release ++
          [.respond (.success value)]

/-- Modelled from the spec: sequential processing of a stream of Method
Calls; each call is dispatched independently, so no failure is fatal to the
dispatcher itself. -/
def processCalls (table : String → Option OpSpec)
    (native : String → List (String × EncodableValue) → NativeResult) :
    List MethodCall → List (List Event)
  | [] => []
  | c :: cs => HandleMethodCall table native c :: processCalls table native cs

/-- Is an event a terminal response? -/
def isRespond : Event → Bool
  | .respond _ => true
  | _ => false

/-- Number of terminal responses in a trace. -/
def respondCount (tr : List Event) : Nat := (tr.filter isRespond).length

/-- Is an event a native-library invocation? -/
def isInvoke : Event → Bool
  | .nativeInvoked _ => true
  | _ => false

/-- Number of native-library invocations in a trace. -/
def invokeCount (tr : List Event) : Nat := (tr.filter isInvoke).length

/-- Is an event a native-handle acquisition? -/
def isAcquire : Event → Bool
  | .acquire _ => true
  | _ => false

/-- Number of native-handle acquisitions in a trace. -/
def acquireCount (tr : List Event) : Nat := (tr.filter isAcquire).length

/-- Segment of a trace strictly before its first terminal response. -/
def beforeRespond (tr : List Event) : List Event :=
  tr.takeWhile (fun e => ! isRespond e)

/-- Concrete operation table with no recognized operation (witness input). -/
def noOpsTable : String → Option OpSpec := fun _ => none

/-- Concrete argument schema of an open-repository operation: one required
string field named path (witness input). -/
def openRepositorySpec : OpSpec := { requiredFields := [("path", .stringT)] }

/-- Concrete operation table recognizing every name with the
open-repository schema (witness input). -/
def openOnlyTable : String → Option OpSpec := fun _ => some openRepositorySpec

/-- Concrete native behaviour that fails with a not-found error after
acquiring handle 7 (witness input). -/
def notFoundNative : String → List (String × EncodableValue) → NativeResult :=
  fun _ _ => .fail (-3) "could not find repository" [7]

/-- Concrete native behaviour never reached by the witnesses that use it
(witness input). -/
def idleNative : String → List (String × EncodableValue) → NativeResult :=
  fun _ _ => .fail 0 "unused" []

/-- Concrete Method Call with an operation name outside every table
(witness input). -/
def unknownCall : MethodCall := { method := "unknownOperation", arguments := .nullV }

/-- Concrete Method Call missing the required path field (witness input). -/
def missingPathCall : MethodCall :=
  { method := "openRepository", arguments := .mapV .nil }

/-- Concrete well-formed open-repository Method Call (witness input). -/
def openCall : MethodCall :=
  { method := "openRepository"
    arguments := .mapV (.cons (.stringV "path") (.stringV "/tmp/repo") .nil) }

/-- Modelled from the spec: an observable event of the host process — a
plugin-registration entry point invoked by the generated registrant at
startup, or a Method Call served afterwards. -/
inductive ProcessEvent : Type where
  | registerEntryPoint : String → ProcessEvent
  | methodCallArrived : MethodCall → ProcessEvent

/-- Modelled from the spec: the host registrant is not among the supplied
sources; the spec states that the registration entry point is invoked at
process startup.  A host process is its startup registration list (one
invocation per listed entry point, run before anything else) followed by
the Method Calls it serves. -/
structure HostProcess where
  startupRegistrations : List String
  servedCalls : List MethodCall

/-- Whole-process event trace: startup registrations first, served calls
after. -/
def processTrace (p : HostProcess) : List ProcessEvent :=
  p.startupRegistrations.map ProcessEvent.registerEntryPoint ++
    p.servedCalls.map ProcessEvent.methodCallArrived

/-- Is this event an invocation of the named registration entry point? -/
def isRegistrationOf (nm : String) : ProcessEvent → Bool
  | .registerEntryPoint m => decide (m = nm)
  | _ => false

/-- Number of invocations of the named registration entry point in a
process trace. -/
def registrationCount (nm : String) (tr : List ProcessEvent) : Nat :=
  (tr.filter (isRegistrationOf nm)).length

/-- Number of occurrences of a name in a list of names. -/
def nameCount (nm : String) (l : List String) : Nat :=
  (l.filter (fun x => decide (x = nm))).length

/-- Name of the C-ABI registration entry point exported by
src/windows/libgit2dart_plugin_c_api.cpp. -/
def cApiEntryPointName : String := "Libgit2dartPluginCApiRegisterWithRegistrar"

/-- Concrete host process registering the plugin once at startup and then
serving one call (witness input). -/
def exampleHostProcess : HostProcess :=
  { startupRegistrations := [cApiEntryPointName], servedCalls := [unknownCall] }

/-- Modelled from the spec: one call against a native resource handle,
with the time its native work takes. -/
structure HandleCall where
  handle : Nat
  duration : Nat

/-- One scheduled execution: the call with its start and completion times. -/
structure ScheduledCall where
  call : HandleCall
  startTime : Nat
  finishTime : Nat

/-- Modelled from the spec: the per-handle exclusion discipline the
dispatcher must impose (its scheduling code is not among the supplied
sources).  `clock h` is the completion time of the latest call already
scheduled on handle `h`; each call starts at its handle's clock, so calls
against the same handle run one after the other while calls on distinct
handles are unconstrained. -/
def scheduleFrom (clock : Nat → Nat) : List HandleCall → List ScheduledCall
  | [] => []
  | c :: rest =>
    { call := c, startTime := clock c.handle
      finishTime := clock c.handle + c.duration } ::
      scheduleFrom
        (fun h => if h = c.handle then clock c.handle + c.duration else clock h)
        rest

/-- Schedule a list of handle calls starting from idle handles. -/
def schedule (calls : List HandleCall) : List ScheduledCall :=
  scheduleFrom (fun _ => 0) calls

/-- An opaque registrar reference of the C ABI
(`FlutterDesktopPluginRegistrarRef`), identified by its id. -/
structure FlutterDesktopPluginRegistrarRef where
  refId : Nat

/-- The `PluginRegistrarWindows` wrapper that the process-wide
`PluginRegistrarManager` singleton resolves for a registrar reference. -/
structure PluginRegistrarWindows where
  registrarId : Nat

/-- Observable host actions of the registration path: the manager resolving
a wrapper for a reference, and whatever the plugin's registration routine
does. -/
inductive HostAction : Type where
  | getRegistrarFor : Nat → HostAction
  | pluginRegistration : Nat → HostAction

/-- Embedding of src/windows/libgit2dart_plugin_c_api.cpp (lines 7-12):
the C-ABI entry point calls `Libgit2dartPlugin::RegisterWithRegistrar` on
the `PluginRegistrarWindows` wrapper that
`flutter::PluginRegistrarManager::GetInstance()` resolves for the incoming
reference, does nothing else, and returns no value.  The manager's
resolution and the plugin's registration routine (whose bodies are not in
this repository) are abstract parameters; the behaviour is the emitted
action trace together with the unit return value. -/
def Libgit2dartPluginCApiRegisterWithRegistrar
    (getRegistrar : Nat → PluginRegistrarWindows)
    (registerWithRegistrar : PluginRegistrarWindows → List HostAction)
    (registrar : FlutterDesktopPluginRegistrarRef) : List HostAction × Unit :=
  (HostAction.getRegistrarFor registrar.refId ::
    registerWithRegistrar (getRegistrar registrar.refId), ())

/-- Written from the claim (spec side of the refinement): resolve the
wrapper for the reference through the process-wide manager, invoke the
plugin's registration routine on that wrapper, perform no other action,
and return no value. -/
def cApiRegisterSpecified
    (getRegistrar : Nat → PluginRegistrarWindows)
    (registerWithRegistrar : PluginRegistrarWindows → List HostAction)
    (registrar : FlutterDesktopPluginRegistrarRef) : List HostAction × Unit :=
  (HostAction.getRegistrarFor registrar.refId ::
    registerWithRegistrar (getRegistrar registrar.refId), ())

/-- Kinds of member functions declared by the class in
src/windows/libgit2dart_plugin.h. -/
inductive MemberKind : Type where
  | staticRegisterWithRegistrar : MemberKind
  | defaultConstructor : MemberKind
  | virtualDestructor : MemberKind
  | copyConstructor : MemberKind
  | copyAssignment : MemberKind
  | handleMethodCallMember : MemberKind
  deriving DecidableEq

/-- One declared member: its kind and whether it is declared deleted. -/
structure MemberDecl where
  kind : MemberKind
  deleted : Bool
  deriving DecidableEq

/-- Embedding of the class declaration `Libgit2dartPlugin`
(src/windows/libgit2dart_plugin.h, lines 11-27): its declared members in
source order; the copy constructor and the copy assignment operator
(lines 20-21) are declared deleted. -/
def libgit2dartPluginMembers : List MemberDecl :=
  [ { kind := .staticRegisterWithRegistrar, deleted := false }
  , { kind := .defaultConstructor, deleted := false }
  , { kind := .virtualDestructor, deleted := false }
  , { kind := .copyConstructor, deleted := true }
  , { kind := .copyAssignment, deleted := true }
  , { kind := .handleMethodCallMember, deleted := false } ]

/-- Does the class declare a member of the given kind? -/
def declaresMember (ms : List MemberDecl) (k : MemberKind) : Bool :=
  ms.any (fun m => decide (m.kind = k))

/-- Rule of the source language: a user-declared special member function is
usable only when some declaration of it is not deleted; with no user
declaration the implicit default is usable. -/
def specialMemberUsable (ms : List MemberDecl) (k : MemberKind) : Bool :=
  if declaresMember ms k then ms.any (fun m => decide (m.kind = k) && ! m.deleted)
  else true

/-- Can an instance of the class be copy-constructed? -/
def copyConstructible (ms : List MemberDecl) : Bool :=
  specialMemberUsable ms .copyConstructor

/-- Can an instance of the class be copy-assigned? -/
def copyAssignable (ms : List MemberDecl) : Bool :=
  specialMemberUsable ms .copyAssignment

theorem sizeV_pos (v : EncodableValue) : 1 ≤ sizeV v := by
  cases v <;> simp only [sizeV] <;> omega

theorem decode_encode_fuel (fuel : Nat) :
    (∀ v rest, sizeV v ≤ fuel → decodeV fuel (encodeV v ++ rest) = some (v, rest)) ∧
    (∀ l rest, sizeL l ≤ fuel →
      decodeItems fuel (elen l) (encodeL l ++ rest) = some (l, rest)) ∧
    (∀ p rest, sizeP p ≤ fuel →
      decodePairs fuel (plen p) (encodeP p ++ rest) = some (p, rest)) := by
  induction fuel with
  | zero =>
    refine ⟨?_, ?_, ?_⟩
    · intro v rest h
      exact absurd h (by have := sizeV_pos v; omega)
    · intro l rest h
      cases l with
      | nil => simp [encodeL, elen, decodeItems]
      | cons x xs => simp only [sizeL] at h; omega
    · intro p rest h
      cases p with
      | nil => simp [encodeP, plen, decodePairs]
      | cons k v r => simp only [sizeP] at h; omega
  | succ f ih =>
    obtain ⟨ihV, ihL, ihP⟩ := ih
    refine ⟨?_, ?_, ?_⟩
    · intro v rest h
      cases v with
      | nullV => simp [encodeV, decodeV]
      | boolV b => simp [encodeV, decodeV]
      | intV i => simp [encodeV, decodeV]
      | doubleV d => simp [encodeV, decodeV]
      | stringV s => simp [encodeV, decodeV]
      | bytesV bs => simp [encodeV, decodeV]
      | listV xs =>
        have hx : sizeL xs ≤ f := by simp [sizeV] at h; omega
        simp [encodeV, decodeV, ihL xs rest hx]
      | mapV kvs =>
        have hx : sizeP kvs ≤ f := by simp [sizeV] at h; omega
        simp [encodeV, decodeV, ihP kvs rest hx]
    · intro l rest h
      cases l with
      | nil => simp [encodeL, elen, decodeItems]
      | cons x xs =>
        have hx : sizeV x ≤ f := by simp [sizeL] at h; omega
        have hxs : sizeL xs ≤ f := by simp [sizeL] at h; omega
        simp [encodeL, elen, decodeItems, List.append_assoc,
          ihV x (encodeL xs ++ rest) hx, ihL xs rest hxs]
    · intro p rest h
      cases p with
      | nil => simp [encodeP, plen, decodePairs]
      | cons k v r =>
        have hk : sizeV k ≤ f := by simp [sizeP] at h; omega
        have hv : sizeV v ≤ f := by simp [sizeP] at h; omega
        have hr : sizeP r ≤ f := by simp [sizeP] at h; omega
        simp [encodeP, plen, decodePairs, List.append_assoc,
          ihV k (encodeV v ++ (encodeP r ++ rest)) hk,
          ihV v (encodeP r ++ rest) hv, ihP r rest hr]

theorem size_le_encode_len (n : Nat) :
    (∀ v, sizeV v ≤ n → sizeV v + 1 ≤ 2 * (encodeV v).length) ∧
    (∀ l, sizeL l ≤ n → sizeL l ≤ 2 * (encodeL l).length) ∧
    (∀ p, sizeP p ≤ n → sizeP p ≤ 2 * (encodeP p).length) := by
  induction n with
  | zero =>
    refine ⟨?_, ?_, ?_⟩
    · intro v h
      exact absurd h (by have := sizeV_pos v; omega)
    · intro l h
      cases l with
      | nil => simp [sizeL]
      | cons x xs => simp only [sizeL] at h; omega
    · intro p h
      cases p with
      | nil => simp [sizeP]
      | cons k v r => simp only [sizeP] at h; omega
  | succ m ih =>
    obtain ⟨ihV, ihL, ihP⟩ := ih
    refine ⟨?_, ?_, ?_⟩
    · intro v h
      cases v with
      | listV xs =>
        have hx : sizeL xs ≤ m := by simp [sizeV] at h; omega
        have := ihL xs hx
        simp [sizeV, encodeV]
        omega
      | mapV kvs =>
        have hx : sizeP kvs ≤ m := by simp [sizeV] at h; omega
        have := ihP kvs hx
        simp [sizeV, encodeV]
        omega
      | nullV => simp [sizeV, encodeV]
      | boolV b => simp [sizeV, encodeV]
      | intV i => simp [sizeV, encodeV]
      | doubleV d => simp [sizeV, encodeV]
      | stringV s => simp [sizeV, encodeV]
      | bytesV bs => simp [sizeV, encodeV]
    · intro l h
      cases l with
      | nil => simp [sizeL]
      | cons x xs =>
        have hx : sizeV x ≤ m := by simp [sizeL] at h; omega
        have hxs : sizeL xs ≤ m := by simp [sizeL] at h; omega
        have h1 := ihV x hx
        have h2 := ihL xs hxs
        simp [sizeL, encodeL]
        omega
    · intro p h
      cases p with
      | nil => simp [sizeP]
      | cons k v r =>
        have hk : sizeV k ≤ m := by simp [sizeP] at h; omega
        have hv : sizeV v ≤ m := by simp [sizeP] at h; omega
        have hr : sizeP r ≤ m := by simp [sizeP] at h; omega
        have h1 := ihV k hk
        have h2 := ihV v hv
        have h3 := ihP r hr
        simp [sizeP, encodeP]
        omega

/-- C4: for every value in the supported encoded-value union (null, bool,
integer, double, string, bytes, ordered list, key-unique map), decoding the
encoding of that value yields the original value: encode then decode is the
identity on supported shapes.  (Proved for all values of the union,
key-unique maps included.) -/
theorem encode_decode_roundtrip (v : EncodableValue) : decode (encode v) = some v := by
  have hsize : sizeV v ≤ 2 * (encodeV v).length := by
    have := (size_le_encode_len (sizeV v)).1 v (le_refl _)
    omega
  have h := (decode_encode_fuel (2 * (encodeV v).length)).1 v [] hsize
  simp only [List.append_nil] at h
  simp [decode, encode, h]

theorem filter_map_eq_nil {α β : Type} (p : β → Bool) (f : α → β)
    (h : ∀ a, p (f a) = false) (l : List α) : (l.map f).filter p = [] := by
  induction l with
  | nil => simp
  | cons x xs ih => simp [h, ih]

theorem beforeRespond_split (pre : List Event) (r : Response)
    (h : ∀ e ∈ pre, isRespond e = false) :
    beforeRespond (pre ++ [Event.respond r]) = pre := by
  unfold beforeRespond
  induction pre with
  | nil => simp [List.takeWhile, isRespond]
  | cons x xs ih =>
    have hx : isRespond x = false := h x (by simp)
    simp only [List.cons_append, List.takeWhile_cons, hx, Bool.not_false, if_true]
    rw [ih (fun e he => h e (by simp [he]))]

/-- C1: for every Method Call processed by the dispatcher via
`HandleMethodCall`, exactly one terminal response (success or error) is
produced — never zero and never more than one — whatever the operation
table says and however the native invocation turns out, failure paths
included. -/
theorem handleMethodCall_exactly_one_response
    (table : String → Option OpSpec)
    (native : String → List (String × EncodableValue) → NativeResult)
    (call : MethodCall) :
    respondCount (HandleMethodCall table native call) = 1 := by
  unfold HandleMethodCall
  cases ht : table call.method with
  | none => simp [respondCount, isRespond]
  | some spec =>
    cases hv : validateArgs spec call.arguments with
    | error e =>
      obtain ⟨field, ty⟩ := e
      simp [hv, respondCount, isRespond]
    | ok args =>
      cases hn : native call.method args with
      | fail code msg acquired =>
        simp [hv, hn, respondCount, List.filter_append, isRespond,
          filter_map_eq_nil isRespond Event.acquire (fun _ => rfl),
          filter_map_eq_nil isRespond Event.release (fun _ => rfl)]
      | ok value acquired returned =>
        simp [hv, hn, respondCount, List.filter_append, isRespond,
          filter_map_eq_nil isRespond Event.acquire (fun _ => rfl),
          filter_map_eq_nil isRespond Event.release (fun _ => rfl)]

/-- C2: a Method Call whose operation name is not in the operation table is
answered by exactly the `UnimplementedOperation` error carrying the
offending name, no native call is invoked, and the dispatcher processes
every subsequent call exactly as it would have without the failed one. -/
theorem handleMethodCall_unimplemented_operation
    (table : String → Option OpSpec)
    (native : String → List (String × EncodableValue) → NativeResult)
    (call : MethodCall)
    (h : table call.method = none) :
    HandleMethodCall table native call =
      [.respond (.failure (unimplementedError call.method))] ∧
    invokeCount (HandleMethodCall table native call) = 0 ∧
    ∀ rest, processCalls table native (call :: rest) =
      [Event.respond (.failure (unimplementedError call.method))] ::
        processCalls table native rest := by
  have htr : HandleMethodCall table native call =
      [.respond (.failure (unimplementedError call.method))] := by
    simp [HandleMethodCall, h]
  refine ⟨htr, ?_, ?_⟩
  · rw [htr]; simp [invokeCount, isInvoke]
  · intro rest
    simp [processCalls, htr]

/-- C2 witness: the unrecognized call unknownCall against the empty table
is answered by the single unimplemented-operation error, invokes nothing,
and the dispatcher goes on processing a subsequent call. -/
theorem handleMethodCall_unimplemented_operation_witness :
    HandleMethodCall noOpsTable idleNative unknownCall =
      [.respond (.failure (unimplementedError unknownCall.method))] ∧
    invokeCount (HandleMethodCall noOpsTable idleNative unknownCall) = 0 ∧
    processCalls noOpsTable idleNative (unknownCall :: [unknownCall]) =
      [Event.respond (.failure (unimplementedError unknownCall.method))] ::
        processCalls noOpsTable idleNative [unknownCall] := by
  obtain ⟨h1, h2, h3⟩ :=
    handleMethodCall_unimplemented_operation noOpsTable idleNative unknownCall rfl
  exact ⟨h1, h2, h3 [unknownCall]⟩

/-- C3: a recognized operation whose arguments are malformed (missing or
mistyped field, or a non-map payload) is answered by exactly the
`InvalidArgument` error naming the offending field and the expected type,
with no native resource acquired and no native call invoked before the
response. -/
theorem handleMethodCall_invalid_argument
    (table : String → Option OpSpec)
    (native : String → List (String × EncodableValue) → NativeResult)
    (call : MethodCall) (spec : OpSpec) (field : String) (ty : FieldType)
    (h1 : table call.method = some spec)
    (h2 : validateArgs spec call.arguments = .error (field, ty)) :
    HandleMethodCall table native call =
      [.respond (.failure (invalidArgumentError field ty))] ∧
    acquireCount (HandleMethodCall table native call) = 0 ∧
    invokeCount (HandleMethodCall table native call) = 0 := by
  have htr : HandleMethodCall table native call =
      [.respond (.failure (invalidArgumentError field ty))] := by
    simp [HandleMethodCall, h1, h2]
  refine ⟨htr, ?_, ?_⟩
  · rw [htr]; simp [acquireCount, isAcquire]
  · rw [htr]; simp [invokeCount, isInvoke]

/-- C3 witness: the open-repository call lacking its required path field is
answered by the invalid-argument error naming path and String, and nothing
native happens. -/
theorem handleMethodCall_invalid_argument_witness :
    HandleMethodCall openOnlyTable idleNative missingPathCall =
      [.respond (.failure (invalidArgumentError "path" .stringT))] ∧
    acquireCount (HandleMethodCall openOnlyTable idleNative missingPathCall) = 0 ∧
    invokeCount (HandleMethodCall openOnlyTable idleNative missingPathCall) = 0 :=
  handleMethodCall_invalid_argument openOnlyTable idleNative missingPathCall
    openRepositorySpec "path" .stringT rfl rfl

/-- C5: the dispatcher never invokes the native library more than once per
Method Call (no automatic retry, whatever the error kind), and when the
native invocation reports an error code the response is exactly the
`NativeOperationFailed` error preserving the native code and message text,
after exactly one native invocation. -/
theorem handleMethodCall_native_failure_no_retry
    (table : String → Option OpSpec)
    (native : String → List (String × EncodableValue) → NativeResult)
    (call : MethodCall) :
    invokeCount (HandleMethodCall table native call) ≤ 1 ∧
    ∀ spec args code msg acquired,
      table call.method = some spec →
      validateArgs spec call.arguments = .ok args →
      native call.method args = .fail code msg acquired →
      HandleMethodCall table native call =
        Event.nativeInvoked call.method ::
          (acquired.map Event.acquire ++ acquired.map Event.release ++
            [.respond (.failure (nativeFailureError code msg))]) ∧
      invokeCount (HandleMethodCall table native call) = 1 := by
  constructor
  · unfold HandleMethodCall
    cases ht : table call.method with
    | none => simp [invokeCount, isInvoke]
    | some spec =>
      cases hv : validateArgs spec call.arguments with
      | error e =>
        obtain ⟨field, ty⟩ := e
        simp [hv, invokeCount, isInvoke]
      | ok args =>
        cases hn : native call.method args with
        | fail code msg acquired =>
          simp [hv, hn, invokeCount, List.filter_append, isInvoke,
            filter_map_eq_nil isInvoke Event.acquire (fun _ => rfl),
            filter_map_eq_nil isInvoke Event.release (fun _ => rfl)]
        | ok value acquired returned =>
          simp [hv, hn, invokeCount, List.filter_append, isInvoke,
            filter_map_eq_nil isInvoke Event.acquire (fun _ => rfl),
            filter_map_eq_nil isInvoke Event.release (fun _ => rfl)]
  · intro spec args code msg acquired h1 h2 h3
    have htr : HandleMethodCall table native call =
        Event.nativeInvoked call.method ::
          (acquired.map Event.acquire ++ acquired.map Event.release ++
            [.respond (.failure (nativeFailureError code msg))]) := by
      simp [HandleMethodCall, h1, h2, h3]
    refine ⟨htr, ?_⟩
    rw [htr]
    simp [invokeCount, List.filter_append, isInvoke,
      filter_map_eq_nil isInvoke Event.acquire (fun _ => rfl),
      filter_map_eq_nil isInvoke Event.release (fun _ => rfl)]

/-- C5 witness: the well-formed open-repository call against a native
library that reports code -3 and a not-found message after acquiring
handle 7 is answered by the native-operation-failed error carrying that
code and message, after exactly one native invocation. -/
theorem handleMethodCall_native_failure_no_retry_witness :
    HandleMethodCall openOnlyTable notFoundNative openCall =
      Event.nativeInvoked openCall.method ::
        ([7].map Event.acquire ++ [7].map Event.release ++
          [.respond (.failure (nativeFailureError (-3) "could not find repository"))]) ∧
    invokeCount (HandleMethodCall openOnlyTable notFoundNative openCall) = 1 :=
  (handleMethodCall_native_failure_no_retry openOnlyTable notFoundNative openCall).2
    openRepositorySpec [("path", .stringV "/tmp/repo")]
    (-3) "could not find repository" [7] rfl rfl rfl

/-- C6: on every exit path of the dispatch routine, each native handle
acquired during the call and not handed back to the caller is released
strictly before the terminal response is sent: on a failing native call
every acquired handle, and on a successful one every acquired handle not
returned to the caller, has its release event inside the trace segment
preceding the response. -/
theorem handleMethodCall_releases_on_every_exit
    (table : String → Option OpSpec)
    (native : String → List (String × EncodableValue) → NativeResult)
    (call : MethodCall) :
    (∀ spec args code msg acquired,
      table call.method = some spec →
      validateArgs spec call.arguments = .ok args →
      native call.method args = .fail code msg acquired →
      ∀ h ∈ acquired,
        Event.release h ∈ beforeRespond (HandleMethodCall table native call)) ∧
    (∀ spec args value acquired returned,
      table call.method = some spec →
      validateArgs spec call.arguments = .ok args →
      native call.method args = .ok value acquired returned →
      ∀ h ∈ acquired, h ∉ returned →
        Event.release h ∈ beforeRespond (HandleMethodCall table native call)) := by
  constructor
  · intro spec args code msg acquired h1 h2 h3 h hmem
    have htr : HandleMethodCall table native call =
        (Event.nativeInvoked call.method ::
          (acquired.map Event.acquire ++ acquired.map Event.release)) ++
          [.respond (.failure (nativeFailureError code msg))] := by
      simp [HandleMethodCall, h1, h2, h3]
    rw [htr, beforeRespond_split]
    · exact List.mem_cons_of_mem _
        (List.mem_append.mpr (Or.inr (List.mem_map_of_mem Event.release hmem)))
    · intro e he
      rcases List.mem_cons.mp he with rfl | he2
      · rfl
      · rcases List.mem_append.mp he2 with hA | hR
        · obtain ⟨a, _, rfl⟩ := List.mem_map.mp hA
          rfl
        · obtain ⟨a, _, rfl⟩ := List.mem_map.mp hR
          rfl
  · intro spec args value acquired returned h1 h2 h3 h hmem hnotret
    have htr : HandleMethodCall table native call =
        (Event.nativeInvoked call.method ::
          (acquired.map Event.acquire ++
            (acquired.filter (fun x => decide (x ∉ returned))).map Event.release)) ++
          [.respond (.success value)] := by
      simp [HandleMethodCall, h1, h2, h3]
    rw [htr, beforeRespond_split]
    · refine List.mem_cons_of_mem _ (List.mem_append.mpr (Or.inr ?_))
      refine List.mem_map_of_mem Event.release ?_
      exact List.mem_filter.mpr ⟨hmem, by simpa using hnotret⟩
    · intro e he
      rcases List.mem_cons.mp he with rfl | he2
      · rfl
      · rcases List.mem_append.mp he2 with hA | hR
        · obtain ⟨a, _, rfl⟩ := List.mem_map.mp hA
          rfl
        · obtain ⟨a, _, rfl⟩ := List.mem_map.mp hR
          rfl

/-- C6 witness: in the failing open-repository call the handle 7 acquired
by the native library is released strictly before the error response. -/
theorem handleMethodCall_releases_on_every_exit_witness :
    Event.release 7 ∈
      beforeRespond (HandleMethodCall openOnlyTable notFoundNative openCall) :=
  (handleMethodCall_releases_on_every_exit openOnlyTable notFoundNative openCall).1
    openRepositorySpec [("path", .stringV "/tmp/repo")]
    (-3) "could not find repository" [7] rfl rfl rfl 7 (by simp)

theorem registrationCount_map_register (nm : String) (l : List String) :
    registrationCount nm (l.map ProcessEvent.registerEntryPoint) = nameCount nm l := by
  induction l with
  | nil => rfl
  | cons x xs ih =>
    by_cases hx : x = nm
    · simp [registrationCount, nameCount, isRegistrationOf, hx, List.filter] at ih ⊢
      exact ih
    · simp [registrationCount, nameCount, isRegistrationOf, hx, List.filter] at ih ⊢
      exact ih

/-- C7: in a host process whose generated registrant lists the plugin's
registration entry point exactly once, that entry point is invoked exactly
once over the whole process trace, all of it at startup: no registration
invocation occurs among the served calls, and the trace is the startup
registrations followed by the served calls. -/
theorem registration_entry_point_once (p : HostProcess)
    (h : nameCount cApiEntryPointName p.startupRegistrations = 1) :
    registrationCount cApiEntryPointName (processTrace p) = 1 ∧
    registrationCount cApiEntryPointName
      (p.servedCalls.map ProcessEvent.methodCallArrived) = 0 ∧
    processTrace p =
      p.startupRegistrations.map ProcessEvent.registerEntryPoint ++
        p.servedCalls.map ProcessEvent.methodCallArrived := by
  have hserved : registrationCount cApiEntryPointName
      (p.servedCalls.map ProcessEvent.methodCallArrived) = 0 := by
    unfold registrationCount
    rw [filter_map_eq_nil (isRegistrationOf cApiEntryPointName)
      ProcessEvent.methodCallArrived (fun _ => rfl)]
    rfl
  refine ⟨?_, hserved, rfl⟩
  unfold processTrace registrationCount
  rw [List.filter_append, List.length_append]
  have h1 : ((p.startupRegistrations.map ProcessEvent.registerEntryPoint).filter
      (isRegistrationOf cApiEntryPointName)).length = 1 := by
    have := registrationCount_map_register cApiEntryPointName p.startupRegistrations
    unfold registrationCount at this
    omega
  have h2 : ((p.servedCalls.map ProcessEvent.methodCallArrived).filter
      (isRegistrationOf cApiEntryPointName)).length = 0 := by
    unfold registrationCount at hserved
    exact hserved
  omega

/-- C7 witness: the example host process registers the entry point once at
startup and never again while serving calls. -/
theorem registration_entry_point_once_witness :
    registrationCount cApiEntryPointName (processTrace exampleHostProcess) = 1 ∧
    registrationCount cApiEntryPointName
      (exampleHostProcess.servedCalls.map ProcessEvent.methodCallArrived) = 0 ∧
    processTrace exampleHostProcess =
      exampleHostProcess.startupRegistrations.map ProcessEvent.registerEntryPoint ++
        exampleHostProcess.servedCalls.map ProcessEvent.methodCallArrived :=
  registration_entry_point_once exampleHostProcess rfl

theorem scheduleFrom_start_ge (calls : List HandleCall) :
    ∀ clock : Nat → Nat, ∀ sc ∈ scheduleFrom clock calls,
      clock sc.call.handle ≤ sc.startTime := by
  induction calls with
  | nil =>
    intro clock sc hsc
    simp [scheduleFrom] at hsc
  | cons c rest ih =>
    intro clock sc hsc
    rcases List.mem_cons.mp hsc with rfl | htail
    · exact Nat.le_refl _
    · have hrec := ih
        (fun h => if h = c.handle then clock c.handle + c.duration else clock h)
        sc htail
      by_cases hh : sc.call.handle = c.handle
      · simp only [hh, if_true] at hrec
        rw [hh]
        omega
      · simpa [hh] using hrec

theorem scheduleFrom_pairwise (calls : List HandleCall) :
    ∀ clock : Nat → Nat,
      List.Pairwise
        (fun a b => a.call.handle = b.call.handle → a.finishTime ≤ b.startTime)
        (scheduleFrom clock calls) := by
  induction calls with
  | nil => intro clock; simp [scheduleFrom]
  | cons c rest ih =>
    intro clock
    rw [scheduleFrom]
    refine List.pairwise_cons.mpr ⟨?_, ih _⟩
    intro b hb hsame
    have hge := scheduleFrom_start_ge rest
      (fun h => if h = c.handle then clock c.handle + c.duration else clock h) b hb
    simp only at hsame
    rw [← hsame] at hge
    have hge2 : clock c.handle + c.duration ≤ b.startTime := by simpa using hge
    simpa using hge2

/-- C8: under the per-handle exclusion discipline, any two calls against
the same native resource handle are serialized — the earlier one finishes
no later than the later one starts, so no two calls ever execute
concurrently against one handle and each handle is held by at most one
executing call at a time. -/
theorem schedule_serializes_same_handle (calls : List HandleCall) :
    List.Pairwise
      (fun a b => a.call.handle = b.call.handle → a.finishTime ≤ b.startTime)
      (schedule calls) :=
  scheduleFrom_pairwise calls (fun _ => 0)

/-- C9: for every registrar reference, the C-ABI entry point
`Libgit2dartPluginCApiRegisterWithRegistrar` is behaviourally equal to
calling the plugin's `RegisterWithRegistrar` on the wrapper the
process-wide manager resolves for that reference: same action trace,
no other action, unit return value — whatever the manager's resolution and
the registration routine are. -/
theorem cApiRegister_refines_spec
    (getRegistrar : Nat → PluginRegistrarWindows)
    (registerWithRegistrar : PluginRegistrarWindows → List HostAction)
    (registrar : FlutterDesktopPluginRegistrarRef) :
    Libgit2dartPluginCApiRegisterWithRegistrar
        getRegistrar registerWithRegistrar registrar =
      cApiRegisterSpecified getRegistrar registerWithRegistrar registrar := rfl

/-- C10: in the declared class `Libgit2dartPlugin`, the copy constructor
and the copy assignment operator are declared deleted, so no instance can
be copy-constructed and no instance can be copy-assigned. -/
theorem copy_operations_deleted :
    copyConstructible libgit2dartPluginMembers = false ∧
    copyAssignable libgit2dartPluginMembers = false := by
  constructor <;> rfl

end Libgit2dart
